import Mathlib

/-
Shallow embedding of the Hope library (src/Hope.js): the `Hope` deferred
value core, the `Hope.any` combinator, and the `Job`/`Scheduler` subsystem,
together with theorems settling the specification claims about them.

Conventions of the embedding:
* JS values that flow through resolutions and rejections are modelled by the
  inductive `HVal`; the JS `undefined` is `HVal.undefined` and each error class
  of the source is a separate constructor.
* Wall-clock data of the source (Date.now timestamps, totalTime, avgTime,
  creation stacks) is elided: no claim mentions it.
* The source runs callbacks through microtask or macrotask queues.  The
  embedding models each deferred callback as an explicit event: an `Ev`
  transition of the scheduler machine, or an explicit delivery step for a
  thenable or a combinator input.
-/

namespace HopeJS

/-- JS values carried by resolutions and rejections, including the error
classes declared by the source (CancelError, AggregateError, SchedulerError,
JobTimeoutError, plain Error, TypeError). -/
inductive HVal where
  | undefined
  | str (s : String)
  | num (n : Int)
  | plainError (msg : String)
  | typeError (msg : String)
  | cancelError (msg : String)
  | schedulerError (msg : String)
  | jobTimeoutError (jobId : String) (ms : Nat)
  | aggregateError (errors : List HVal)

/-- The three states of a Hope: `Hope.PENDING`, `Hope.FULFILLED` (with its
value), `Hope.REJECTED` (with its reason). -/
inductive HState where
  | pending
  | fulfilled (v : HVal)
  | rejected (r : HVal)

/-- The observable settlement state of one Hope instance: `_state` together
with `_value` or `_reason` (folded into `HState`), and the sticky `_settled`
guard.  Callback queues are modelled by the explicit delivery events that
drain them. -/
structure Hope where
  state : HState
  settled : Bool

/-- A freshly constructed Hope: `_state = PENDING`, `_settled = false`. -/
def Hope.fresh : Hope := { state := .pending, settled := false }

/-- `Hope.prototype._reject` in the default (non-strict) configuration:
a second settlement attempt is warned about and dropped; otherwise the Hope
transitions to REJECTED with the given reason. -/
def Hope._reject (h : Hope) (reason : HVal) : Hope :=
  if h.settled then h
  else { state := .rejected reason, settled := true }

/-- The argument passed to the `resolve` callback of an executor, as
`Hope.prototype._resolve` distinguishes it: the Hope itself (`value === this`),
a thenable (a value with a callable `then`), or a plain value. -/
inductive ResolveArg where
  | selfRef
  | thenable
  | plain (v : HVal)

/-- Result of one `_resolve` call: the new Hope state plus the number of
times the argument had its `then` method invoked during this call. -/
structure ResolveRes where
  hope : Hope
  thenCalls : Nat

/-- `Hope.prototype._resolve` in the default (non-strict) configuration.
Mirrors the source exactly: the `_settled` guard is checked and then set
BEFORE the self-resolution check and before thenable adoption; a self
resolution calls `_reject(TypeError)` on the already-flagged state; a
thenable has its `then` called once with `val => this._resolve(val)` and
`reason => this._reject(reason)` (those later deliveries are the functions
`Hope.thenableFulfilled` / `Hope.thenableRejected` below); a plain value
fulfills. -/
def Hope._resolve (h : Hope) (x : ResolveArg) : ResolveRes :=
  if h.settled then { hope := h, thenCalls := 0 }
  else
    let h1 : Hope := { h with settled := true }
    match x with
    | .selfRef =>
        { hope := h1._reject (.typeError "Hope cannot resolve to itself"),
          thenCalls := 0 }
    | .thenable => { hope := h1, thenCalls := 1 }
    | .plain v => { hope := { state := .fulfilled v, settled := true }, thenCalls := 0 }

/-- The delivery of the adopted thenable fulfilling with `v`: the source
registered `val => this._resolve(val)`, so the Hope runs `_resolve` again
with a plain value. -/
def Hope.thenableFulfilled (h : Hope) (v : HVal) : Hope :=
  (h._resolve (.plain v)).hope

/-- The delivery of the adopted thenable rejecting with `r`: the source
registered `reason => this._reject(reason)`. -/
def Hope.thenableRejected (h : Hope) (r : HVal) : Hope :=
  h._reject r

/-- The `resolve` callback of an executor applied to a plain (non-thenable,
non-self) value: `_resolve` with that value. -/
def Hope.resolveCb (h : Hope) (v : HVal) : Hope :=
  (h._resolve (.plain v)).hope

/-- The settlement of one input of a combinator such as `Hope.any`: the
input either fulfills with a value or rejects with a reason.  (Each input
is passed through `Hope.resolve`, so it settles at most once.) -/
inductive Outcome where
  | ok (v : HVal)
  | err (r : HVal)

/-- Whether an outcome is a rejection. -/
def Outcome.isErr : Outcome → Bool
  | .ok _ => false
  | .err _ => true

/-- The rejection reason of an outcome (`undefined` for a fulfillment; only
used on rejections). -/
def Outcome.errReason : Outcome → HVal
  | .ok _ => .undefined
  | .err r => r

/-- The mutable state of one `Hope.any(iterable)` call: the returned Hope,
the `errors` array (preallocated with `items.length` holes, the JS holes
being `undefined`), and the `rejected` counter. -/
structure AnySt where
  hope : Hope
  errors : List (Option HVal)
  rejectedCount : Nat

/-- State of `Hope.any` after the synchronous part of the executor ran on a
non-empty input of length `n`: pending Hope, `new Array(n)` of holes,
`rejected = 0`. -/
def anyInit (n : Nat) : AnySt :=
  { hope := Hope.fresh, errors := List.replicate n none, rejectedCount := 0 }

/-- One settlement delivery inside `Hope.any`: input `ev.1` settles with
`ev.2`.  A fulfillment calls the outer `resolve`; a rejection stores the
reason at the input index, bumps `rejected`, and when every input has
rejected calls the outer `reject` with an AggregateError of the `errors`
array.  (`st.errors.length` is `items.length`: the list is preallocated
with that length and `List.set` preserves it.) -/
def anyStep (st : AnySt) (ev : Nat × Outcome) : AnySt :=
  match ev.2 with
  | .ok v => { st with hope := st.hope.resolveCb v }
  | .err r =>
      let errors := st.errors.set ev.1 (some r)
      let rejected := st.rejectedCount + 1
      { hope :=
          if rejected = st.errors.length then
            st.hope._reject (.aggregateError (errors.map (fun o => o.getD .undefined)))
          else st.hope,
        errors := errors,
        rejectedCount := rejected }

/-- `Hope.any(iterable)` on an input of length `n`, whose settlements are
delivered in the temporal order given by `events` (each event pairs an
input index with its outcome).  An empty input rejects synchronously with
`AggregateError([])` before any delivery. -/
def anyExec (n : Nat) (events : List (Nat × Outcome)) : AnySt :=
  if n = 0 then
    { hope := Hope.fresh._reject (.aggregateError []),
      errors := [], rejectedCount := 0 }
  else
    events.foldl anyStep (anyInit n)

/-- The `errors` array after a list of rejection deliveries: each delivery
writes its reason at its input index. -/
def buildErr (events : List (Nat × Outcome)) (init : List (Option HVal)) :
    List (Option HVal) :=
  events.foldl (fun acc e => acc.set e.1 (some e.2.errReason)) init

/-- The rejection reason contributed by input `i`: the reason of the event
of index `i` (inputs settle once, so the first matching event is the only
one), `undefined` when input `i` never rejected. -/
def reasonAt (events : List (Nat × Outcome)) (i : Nat) : HVal :=
  match events.find? (fun e => e.1 == i) with
  | some e => e.2.errReason
  | none => .undefined

/-- The five states of a Job: 'pending', 'running', 'completed', 'failed',
'canceled'. -/
inductive JobState where
  | pending
  | running
  | completed
  | failed
  | canceled
  deriving DecidableEq

/-- Resolved job options.  The constructor writes defaults and then spreads
the caller options over them, so a key the caller supplies always wins raw
and a missing key gets its default (timeout 0, retries 0, retryDelay 1000,
priority 0); callers of the embedding pass the resolved record. -/
structure JobOptions where
  timeout : Nat
  retries : Nat
  retryDelay : Nat
  priority : Int
  deriving DecidableEq

/-- One Job.  `id` is the numeric part of the minted `job-N` string.
Wall-clock fields (startTime, endTime) and the live Hope reference are
elided; the `_cancel` handle exists exactly when the job has been run,
which `state = running` implies at the places the source consults it. -/
structure Job where
  id : Nat
  opts : JobOptions
  state : JobState
  attempts : Nat
  errorV : Option HVal
  resultV : Option HVal

/-- The scheduler statistics counters (totalTime and avgTime, which are
wall-clock derived, are elided). -/
structure Stats where
  totalJobs : Nat
  completedJobs : Nat
  failedJobs : Nat
  canceledJobs : Nat
  deriving DecidableEq

/-- The Scheduler state.
* `jobs` is the id → Job map in insertion order; `pendingJobs`,
  `runningJobs` and `completedJobs` hold job ids (the source holds object
  references aliased with the map; the embedding keeps the single copy in
  `jobs`).
* `runningJobs` models the JS Set: insertion-ordered, duplicate-free by
  construction of its only insertion point.
* `idleSlot` is the identity of the `_idleHope`/`_idleResolve` pair when
  present, `idleLedger` records every idle Hope ever minted together with
  whether it has been fulfilled, and `hopeCtr` mints the identities.
* `obligations` are the launched `job.run()` Hopes whose `.then` callback
  in `_runJob` has not fired yet; `retryTimers` are the armed retry
  setTimeout callbacks.  Both fire later as explicit events.
* `launchLog` is ghost state recording the order in which `Job.run`
  actually started tasks. -/
structure Scheduler where
  concurrency : Nat
  maxQueueSize : Option Nat
  autoStart : Bool
  jobs : List Job
  pendingJobs : List Nat
  runningJobs : List Nat
  completedJobs : List Nat
  nextJobId : Nat
  isRunning : Bool
  stats : Stats
  idleSlot : Option Nat
  idleLedger : List (Nat × Bool)
  hopeCtr : Nat
  obligations : List Nat
  retryTimers : List Nat
  launchLog : List Nat

/-- `this.jobs.get(id)`. -/
def findJob (jobs : List Job) (id : Nat) : Option Job :=
  jobs.find? (fun j => j.id == id)

/-- Update the job stored under `id`. -/
def updateJob (jobs : List Job) (id : Nat) (f : Job → Job) : List Job :=
  jobs.map (fun j => if j.id == id then f j else j)

/-- The priority of the job with a given id (0 if absent; never consulted
for absent ids). -/
def priorityOf (s : Scheduler) (id : Nat) : Int :=
  match findJob s.jobs id with
  | some j => j.opts.priority
  | none => 0

/-- Stable insertion of `id` into a list already sorted by priority
descending: `id` goes after every element of priority ≥ its own. -/
def insertDesc (s : Scheduler) (id : Nat) : List Nat → List Nat
  | [] => [id]
  | x :: xs =>
      if priorityOf s id ≤ priorityOf s x then x :: insertDesc s id xs
      else id :: x :: xs

/-- `pendingJobs.sort((a, b) => b.options.priority - a.options.priority)`:
a stable sort by priority descending (JS Array.sort is stable).  Any stable
sort produces the same list, so insertion sort is used for a structurally
recursive definition. -/
def sortPending (s : Scheduler) (l : List Nat) : List Nat :=
  l.foldl (fun acc id => insertDesc s id acc) []

/-- `runningJobs.add(id)`: JS Set insertion (appends, no duplicate). -/
def addUnique (l : List Nat) (id : Nat) : List Nat :=
  if id ∈ l then l else l ++ [id]

/-- `Job.prototype.cancel`: a running job (its `_cancel` handle is set once
run) or a pending job flips to canceled and reports true; otherwise no
effect and false.  Canceling a running job also rejects its Hope with a
CancelError; that rejection reaches `_jobFailed` later through the pending
obligation of the launched run. -/
def Job.cancel (j : Job) : Job × Bool :=
  if j.state = .running then ({ j with state := .canceled }, true)
  else if j.state = .pending then ({ j with state := .canceled }, true)
  else (j, false)

/-- Cancel every job of `ids` inside the map, returning the ids whose
`cancel()` reported true (the loop bodies of `cancelAll` and `stop`). -/
def cancelPass (jobs : List Job) (ids : List Nat) : List Job × List Nat :=
  ids.foldl
    (fun (acc : List Job × List Nat) id =>
      match findJob acc.1 id with
      | none => acc
      | some j =>
          let c := Job.cancel j
          let js := updateJob acc.1 id (fun _ => c.1)
          if c.2 then (js, acc.2 ++ [id]) else (js, acc.2))
    (jobs, [])

/-- `Scheduler.prototype._checkIdle`: when nothing is pending or running
and an idle Hope is armed, resolve it and clear the slot. -/
def Scheduler._checkIdle (s : Scheduler) : Scheduler :=
  if s.runningJobs = [] ∧ s.pendingJobs = [] then
    match s.idleSlot with
    | some h =>
        { s with idleSlot := none,
                 idleLedger := s.idleLedger.map
                   (fun p => if p.1 == h then (p.1, true) else p) }
    | none => s
  else s

/-- `Job.prototype.run` as invoked from `Scheduler._runJob`.  A pending job
transitions to running with `attempts` bumped and its task started (ghost
logged); a non-pending job yields an already-rejected Hope.  Either way
`_runJob` chains `.then(ok, err)` onto the returned Hope, whose callback
fires later: the launched run becomes an obligation. -/
def Scheduler._runJob (s : Scheduler) (id : Nat) : Scheduler :=
  match findJob s.jobs id with
  | none => { s with obligations := s.obligations ++ [id] }
  | some j =>
      if j.state = .pending then
        { s with
          jobs := updateJob s.jobs id
            (fun j => { j with state := .running, attempts := j.attempts + 1 }),
          obligations := s.obligations ++ [id],
          launchLog := s.launchLog ++ [id] }
      else
        { s with obligations := s.obligations ++ [id] }

/-- The while loop of `_processQueue`: while `running.size < concurrency`
and the queue is non-empty, shift the head, add its id to the running set
and launch it.  Each iteration consumes exactly one pending entry and
`_runJob` never touches the queue, so `fuel = pendingJobs.length` makes the
recursion exhaustive. -/
def pumpGo : Nat → Scheduler → Scheduler
  | 0, s => s
  | Nat.succ fuel, s =>
      match s.pendingJobs with
      | [] => s
      | id :: rest =>
          if s.runningJobs.length < s.concurrency then
            pumpGo fuel
              (Scheduler._runJob
                { s with pendingJobs := rest,
                         runningJobs := addUnique s.runningJobs id } id)
          else s

/-- `Scheduler.prototype._processQueue`: no-op when stopped; otherwise run
the launch loop, then check for idleness when both collections drained. -/
def Scheduler._processQueue (s : Scheduler) : Scheduler :=
  if s.isRunning then
    let s1 := pumpGo s.pendingJobs.length s
    if s1.runningJobs = [] ∧ s1.pendingJobs = [] then s1._checkIdle else s1
  else s

/-- Whether `pendingJobs.length >= maxQueueSize` (`none` models Infinity,
against which every finite length compares false). -/
def queueFull (s : Scheduler) : Bool :=
  match s.maxQueueSize with
  | some m => m ≤ s.pendingJobs.length
  | none => false

/-- `Scheduler.prototype.add`: throws `SchedulerError('Queue is full')` at
capacity, before any mutation; otherwise mints `job-N`, registers the job,
appends it to the queue, bumps `totalJobs`, re-sorts the queue by priority
descending and, when running, pumps.  Returns the new state and the minted
id. -/
def Scheduler.add (s : Scheduler) (opts : JobOptions) :
    Except HVal (Scheduler × Nat) :=
  if queueFull s then
    .error (.schedulerError "Queue is full")
  else
    let id := s.nextJobId
    let job : Job :=
      { id := id, opts := opts, state := .pending, attempts := 0,
        errorV := none, resultV := none }
    let s1 := { s with
      nextJobId := s.nextJobId + 1,
      jobs := s.jobs ++ [job],
      pendingJobs := s.pendingJobs ++ [id],
      stats := { s.stats with totalJobs := s.stats.totalJobs + 1 } }
    let s2 := { s1 with pendingJobs := sortPending s1 s1.pendingJobs }
    .ok (if s2.isRunning then (s2._processQueue, id) else (s2, id))

/-- `Scheduler.prototype.start`. -/
def Scheduler.start (s : Scheduler) : Scheduler :=
  if s.isRunning then s
  else Scheduler._processQueue { s with isRunning := true }

/-- `Scheduler.prototype.stop`: flips `isRunning` off, cancels every pending
job and empties the queue, cancels every running job.  It touches neither
the running set nor any statistics counter and performs no idle check. -/
def Scheduler.stop (s : Scheduler) : Scheduler :=
  let s1 := { s with isRunning := false }
  let p1 := cancelPass s1.jobs s1.pendingJobs
  let s2 := { s1 with jobs := p1.1, pendingJobs := [] }
  let p2 := cancelPass s2.jobs s2.runningJobs
  { s2 with jobs := p2.1 }

/-- `Scheduler.prototype.onIdle`: lazily mint the idle Hope.  The executor
runs synchronously, stores the resolver in the slot and resolves at once
when nothing is pending or running.  Returns the new state and the identity
of the returned Hope. -/
def Scheduler.onIdle (s : Scheduler) : Scheduler × Nat :=
  match s.idleSlot with
  | some h => (s, h)
  | none =>
      let h := s.hopeCtr
      let fulfilled := s.runningJobs.isEmpty && s.pendingJobs.isEmpty
      ({ s with idleSlot := some h,
                hopeCtr := s.hopeCtr + 1,
                idleLedger := s.idleLedger ++ [(h, fulfilled)] }, h)

/-- `Scheduler.prototype.cancelJob`. -/
def Scheduler.cancelJob (s : Scheduler) (id : Nat) : Scheduler × Bool :=
  match findJob s.jobs id with
  | none => (s, false)
  | some j =>
      let c := Job.cancel j
      let s1 := { s with jobs := updateJob s.jobs id (fun _ => c.1) }
      if c.2 then
        let s2 := { s1 with
          pendingJobs := s1.pendingJobs.erase id,
          runningJobs := s1.runningJobs.erase id,
          stats := { s1.stats with canceledJobs := s1.stats.canceledJobs + 1 } }
        (s2._checkIdle, true)
      else (s1, false)

/-- `Scheduler.prototype.cancelAll`: cancel every pending job (counting each
success), empty the queue, cancel every running job (counting each
success), clear the running set, re-check idleness; returns the canceled
ids. -/
def Scheduler.cancelAll (s : Scheduler) : Scheduler × List Nat :=
  let p1 := cancelPass s.jobs s.pendingJobs
  let s1 := { s with
    jobs := p1.1, pendingJobs := [],
    stats := { s.stats with canceledJobs := s.stats.canceledJobs + p1.2.length } }
  let p2 := cancelPass s1.jobs s1.runningJobs
  let s2 := { s1 with
    jobs := p2.1, runningJobs := [],
    stats := { s1.stats with canceledJobs := s1.stats.canceledJobs + p2.2.length } }
  (s2._checkIdle, p1.2 ++ p2.2)

/-- `Scheduler.prototype._jobCompleted` (the inner `task.then` callback of
`Job.run` already wrote the same result and state; re-writing them here is
the source order). -/
def Scheduler._jobCompleted (s : Scheduler) (id : Nat) (result : HVal) :
    Scheduler :=
  let s1 := { s with runningJobs := s.runningJobs.erase id }
  match findJob s1.jobs id with
  | none => s1._processQueue
  | some _ =>
      let s2 := { s1 with
        jobs := updateJob s1.jobs id
          (fun j => { j with resultV := some result, state := .completed }),
        completedJobs := s1.completedJobs ++ [id],
        stats := { s1.stats with completedJobs := s1.stats.completedJobs + 1 } }
      s2._processQueue

/-- `error instanceof JobTimeoutError`. -/
def isJobTimeoutError : HVal → Bool
  | .jobTimeoutError _ _ => true
  | _ => false

/-- The reason handling of `Hope.prototype.timeout(ms, reason)`: a string
reason is wrapped in a plain `Error(reason)`, any other reason is passed
through. -/
def hopeTimeoutReason : String ⊕ HVal → HVal
  | .inl msg => .plainError msg
  | .inr e => e

/-- The string `Job.run` passes as the timeout reason for job `id` with a
per-job timeout of `ms` milliseconds. -/
def jobTimeoutMessage (id ms : Nat) : String :=
  "Job job-" ++ toString id ++ " timed out after " ++ toString ms ++ "ms"

/-- The reason with which the timeout decorator armed by `Job.run` rejects:
`Job.run` passes a string, so `Hope.timeout` wraps it in a plain Error. -/
def jobTimeoutReject (id ms : Nat) : HVal :=
  hopeTimeoutReason (.inl (jobTimeoutMessage id ms))

/-- `Scheduler.prototype._jobFailed`: with attempts left and an error that
is not a `JobTimeoutError` instance, revert the job to pending, clear its
error and arm the retry timer (the timer body is `retryTimerFires`);
otherwise mark it failed, archive it, bump `failedJobs`, drop it from the
running set and pump.  (The inner `task.then` rejection callback of
`Job.run` wrote `state = failed` and the error just before; both branches
overwrite those fields.) -/
def Scheduler._jobFailed (s : Scheduler) (id : Nat) (e : HVal) : Scheduler :=
  match findJob s.jobs id with
  | none => s
  | some j =>
      if j.attempts ≤ j.opts.retries ∧ isJobTimeoutError e = false then
        { s with
          jobs := updateJob s.jobs id
            (fun j => { j with state := .pending, errorV := none }),
          retryTimers := s.retryTimers ++ [id] }
      else
        let s1 := { s with
          jobs := updateJob s.jobs id
            (fun j => { j with state := .failed, errorV := some e }),
          runningJobs := s.runningJobs.erase id,
          completedJobs := s.completedJobs ++ [id],
          stats := { s.stats with failedJobs := s.stats.failedJobs + 1 } }
        s1._processQueue

/-- The setTimeout body armed by the retry branch of `_jobFailed`: push the
job back onto the queue, re-sort by priority descending, pump. -/
def retryTimerFires (s : Scheduler) (id : Nat) : Scheduler :=
  if id ∈ s.retryTimers then
    let s1 := { s with retryTimers := s.retryTimers.erase id,
                       pendingJobs := s.pendingJobs ++ [id] }
    let s2 := { s1 with pendingJobs := sortPending s1 s1.pendingJobs }
    s2._processQueue
  else s

/-- The events of the scheduler machine: the public calls a client may make
plus the deferred callbacks (settlement of a launched run, a retry timer
firing). -/
inductive Ev where
  | add (opts : JobOptions)
  | start
  | stop
  | cancelJob (id : Nat)
  | cancelAll
  | onIdle
  | settleOk (id : Nat) (v : HVal)
  | settleErr (id : Nat) (e : HVal)
  | retryTimer (id : Nat)

/-- One machine transition.  `add` that throws leaves the state unchanged
(the exception propagates to the caller).  A settlement event is enabled
only for a launched run whose callback has not fired yet; it consumes the
obligation and routes to `_jobCompleted` or `_jobFailed`. -/
def step (s : Scheduler) (e : Ev) : Scheduler :=
  match e with
  | .add opts =>
      match Scheduler.add s opts with
      | .ok p => p.1
      | .error _ => s
  | .start => s.start
  | .stop => s.stop
  | .cancelJob id => (s.cancelJob id).1
  | .cancelAll => s.cancelAll.1
  | .onIdle => s.onIdle.1
  | .settleOk id v =>
      if id ∈ s.obligations then
        Scheduler._jobCompleted { s with obligations := s.obligations.erase id } id v
      else s
  | .settleErr id e =>
      if id ∈ s.obligations then
        Scheduler._jobFailed { s with obligations := s.obligations.erase id } id e
      else s
  | .retryTimer id => retryTimerFires s id

/-- The Scheduler constructor (after option resolution: a caller-supplied
key wins raw through the trailing spread, a missing key gets concurrency 1,
maxQueueSize Infinity, autoStart true).  When autoStart holds the
constructor calls `start()`. -/
def Scheduler.init (concurrency : Nat) (maxQueueSize : Option Nat)
    (autoStart : Bool) : Scheduler :=
  let s : Scheduler :=
    { concurrency := concurrency, maxQueueSize := maxQueueSize,
      autoStart := autoStart, jobs := [], pendingJobs := [],
      runningJobs := [], completedJobs := [], nextJobId := 1,
      isRunning := false,
      stats := { totalJobs := 0, completedJobs := 0, failedJobs := 0,
                 canceledJobs := 0 },
      idleSlot := none, idleLedger := [], hopeCtr := 0,
      obligations := [], retryTimers := [], launchLog := [] }
  if autoStart then s.start else s

/-- Run a list of events from a state. -/
def runTrace (s : Scheduler) (evs : List Ev) : Scheduler :=
  evs.foldl step s

/-- The reachable scheduler states: any constructed scheduler, closed under
machine transitions. -/
inductive Reach : Scheduler → Prop where
  | base (c : Nat) (mq : Option Nat) (a : Bool) : Reach (Scheduler.init c mq a)
  | next (s : Scheduler) (e : Ev) : Reach s → Reach (step s e)

/-- Options of the S5 retry-policy job: `retries = 2`, `retryDelay = 0`,
no per-job timeout, default priority. -/
def retryOpts : JobOptions :=
  { timeout := 0, retries := 2, retryDelay := 0, priority := 0 }

/-- The S5 retry scenario on a default scheduler (concurrency 1, autoStart):
add the job, its first attempt rejects, the (zero-delay) retry timer fires. -/
def retryState : Scheduler :=
  runTrace (Scheduler.init 1 none true)
    [.add retryOpts, .settleErr 1 (.plainError "attempt failed"), .retryTimer 1]

/-- Options of the job-timeout scenario: per-job timeout 10 ms, one retry. -/
def timeoutOpts : JobOptions :=
  { timeout := 10, retries := 1, retryDelay := 0, priority := 0 }

/-- The job-timeout scenario on a default scheduler: add a job whose task
never settles; its 10 ms timeout decorator rejects the run. -/
def timeoutState : Scheduler :=
  runTrace (Scheduler.init 1 none true)
    [.add timeoutOpts, .settleErr 1 (jobTimeoutReject 1 10)]

/-- Priority-only options for the S4 tasks. -/
def prioOpts (p : Int) : JobOptions :=
  { timeout := 0, retries := 0, retryDelay := 1000, priority := p }

/-- The S4 priority scenario exactly as claimed: a scheduler with
concurrency 1 (all other options default, hence autoStart), tasks A, B, C,
D added with priorities 1, 10, 5, 100; every launched task fulfills with
its label.  Job ids: A = 1, B = 2, C = 3, D = 4. -/
def prioState : Scheduler :=
  runTrace (Scheduler.init 1 none true)
    [.add (prioOpts 1), .add (prioOpts 10), .add (prioOpts 5),
     .add (prioOpts 100),
     .settleOk 1 (.str "A"), .settleOk 4 (.str "D"),
     .settleOk 2 (.str "B"), .settleOk 3 (.str "C")]

/-- The S4 priority scenario with autoStart disabled and `start()` called
after all four adds. -/
def prioStateLate : Scheduler :=
  runTrace (Scheduler.init 1 none false)
    [.add (prioOpts 1), .add (prioOpts 10), .add (prioOpts 5),
     .add (prioOpts 100), .start,
     .settleOk 4 (.str "D"), .settleOk 2 (.str "B"),
     .settleOk 3 (.str "C"), .settleOk 1 (.str "A")]

/-- The totals scenario: a scheduler constructed with autoStart disabled,
one job added, then `stop()`. -/
def stopState : Scheduler :=
  runTrace (Scheduler.init 1 none false) [.add (prioOpts 0), .stop]

/-- The observed totals of the C6 invariant: pending + running +
completed + failed + canceled. -/
def observedTotals (s : Scheduler) : Nat :=
  s.pendingJobs.length + s.runningJobs.length + s.stats.completedJobs +
    s.stats.failedJobs + s.stats.canceledJobs

/-- The settlement state of the idle Hope with identity `h`: `some true`
once fulfilled, `some false` while pending, `none` if never minted. -/
def lookupLedger (l : List (Nat × Bool)) (h : Nat) : Option Bool :=
  (l.find? (fun p => p.1 == h)).map (fun p => p.2)

/-- C1: a DeferredValue whose resolve callback receives a thenable does call
the thenable's chain method once, but it marks itself settled first, so the
thenable's first settlement — delivered through the registered
`val => this._resolve(val)` / `reason => this._reject(reason)` callbacks —
is swallowed by the double-settlement guard: the DV never fulfills with the
thenable's value and never rejects with its reason; it stays pending.  This
refutes the claim that the first settlement of the thenable determines the
DV's outcome. -/
theorem C1_thenable_adoption_never_settles (v r : HVal) :
    (Hope.fresh._resolve .thenable).thenCalls = 1 ∧
    (Hope.fresh._resolve .thenable).hope.state = .pending ∧
    (Hope.fresh._resolve .thenable).hope.settled = true ∧
    (Hope.fresh._resolve .thenable).hope.thenableFulfilled v
      = (Hope.fresh._resolve .thenable).hope ∧
    (Hope.fresh._resolve .thenable).hope.thenableRejected r
      = (Hope.fresh._resolve .thenable).hope :=
  ⟨rfl, rfl, rfl, rfl, rfl⟩

/-- C2: invoking the resolution procedure of a fresh DV with the DV itself
does NOT transition it to Rejected: `_resolve` flips `_settled` before the
self-check, so the `_reject(TypeError)` it then issues is swallowed by the
double-settlement guard and the DV stays pending (with the sticky guard
set) forever.  This refutes the claim that self-resolution yields a
type-error rejection. -/
theorem C2_self_resolution_never_rejects :
    (Hope.fresh._resolve .selfRef).hope = { state := .pending, settled := true } :=
  rfl

/-- C3: the S5 retry scenario (default scheduler, hence concurrency 1;
`retries = 2`, `retryDelay = 0`; the task rejects on its first attempt)
gets stuck: the retry branch of `_jobFailed` never removes the job id from
`runningJobs`, so after the retry timer re-queues the job the pump sees a
full running set and never relaunches it.  The job remains pending forever
with `attempts = 1`, no settlement callback or timer is outstanding, and
the pump is a fixpoint — the claimed outcome (`Completed`, `attempts = 3`,
`completedJobs = 1`) is unreachable. -/
theorem C3_retry_scenario_stuck :
    retryState.pendingJobs = [1] ∧
    retryState.runningJobs = [1] ∧
    (findJob retryState.jobs 1).map Job.state = some .pending ∧
    (findJob retryState.jobs 1).map Job.attempts = some 1 ∧
    retryState.stats.completedJobs = 0 ∧
    retryState.stats.failedJobs = 0 ∧
    retryState.obligations = [] ∧
    retryState.retryTimers = [] ∧
    Scheduler._processQueue retryState = retryState :=
  ⟨by decide, by decide, by decide, by decide, by decide, by decide,
   by decide, by decide, rfl⟩

/-- C4: a job whose run fails because its per-job timeout expired IS
retried when retries remain: the timeout decorator receives a string reason
from `Job.run` and therefore rejects with a plain Error, never with a
`JobTimeoutError` (which the source never constructs), so the
`error instanceof JobTimeoutError` guard of `_jobFailed` does not match and
the retry branch runs — the job reverts to pending with a retry timer
armed, is not archived, and `failedJobs` stays 0.  This refutes the claim
that job-timeout failures never retry. -/
theorem C4_job_timeout_retries :
    isJobTimeoutError (jobTimeoutReject 1 10) = false ∧
    (findJob timeoutState.jobs 1).map Job.state = some .pending ∧
    (findJob timeoutState.jobs 1).map Job.attempts = some 1 ∧
    timeoutState.retryTimers = [1] ∧
    timeoutState.stats.failedJobs = 0 ∧
    timeoutState.completedJobs = [] :=
  ⟨by decide, by decide, by decide, by decide, by decide, by decide⟩

/-- C5 counterexample: in the S4 scenario exactly as claimed (a scheduler
with concurrency 1 — every other option default, so autoStart is on — and
tasks A, B, C, D added with priorities 1, 10, 5, 100), task A is launched
the moment it is added, before B, C, D exist, so the execution order is
A, D, B, C (ids 1, 4, 2, 3), not the claimed D, B, C, A. -/
theorem C5_priority_order_counterexample :
    prioState.launchLog = [1, 4, 2, 3] ∧ prioState.launchLog ≠ [4, 2, 3, 1] :=
  ⟨by decide, by decide⟩

/-- C5 amended: with autoStart disabled and `start()` called only after all
four adds, the queue is fully sorted by priority descending before the
first launch and the execution order is D, B, C, A (ids 4, 2, 3, 1); all
four jobs complete. -/
theorem C5_priority_order_after_start :
    prioStateLate.launchLog = [4, 2, 3, 1] ∧
    prioStateLate.stats.completedJobs = 4 :=
  ⟨by decide, by decide⟩

/-- C6: the observed-totals invariant `stats.totalJobs = pending + running
+ completed + failed + canceled` is violated in a reachable state: on a
scheduler constructed with autoStart disabled, adding one job and calling
`stop()` cancels the job and empties the queue without incrementing
`canceledJobs` (stop performs no statistics bookkeeping), leaving
`totalJobs = 1` while the observed totals sum to 0. -/
theorem C6_totals_invariant_violated_by_stop :
    stopState.stats.totalJobs = 1 ∧ observedTotals stopState = 0 :=
  ⟨by decide, by decide⟩

/-- C7 counterexample: on a fresh (hence idle) scheduler the first
`onIdle()` call mints a DV that resolves immediately — but the slot is NOT
cleared (only `_checkIdle` clears it, and nothing calls it here), so a
second call returns the very same DV instead of a fresh one.  This refutes
the claim that after the DV resolves the slot is always cleared. -/
theorem C7_idle_slot_not_cleared_counterexample :
    ((Scheduler.init 1 none true).onIdle).1.idleLedger = [(0, true)] ∧
    ((Scheduler.init 1 none true).onIdle).1.idleSlot = some 0 ∧
    (((Scheduler.init 1 none true).onIdle).1.onIdle).2 = 0 ∧
    (((Scheduler.init 1 none true).onIdle).1.onIdle).1.idleSlot = some 0 :=
  ⟨by decide, by decide, by decide, by decide⟩

/-- A ledger key not yet present looks up to the freshly appended entry. -/
theorem lookupLedger_append_fresh (l : List (Nat × Bool)) (k : Nat) (b : Bool)
    (h : lookupLedger l k = none) : lookupLedger (l ++ [(k, b)]) k = some b := by
  unfold lookupLedger at h ⊢
  rw [List.find?_append]
  cases hf : l.find? (fun p => p.1 == k) with
  | none => simp [List.find?]
  | some p => rw [hf] at h; simp at h

/-- Marking key `k` fulfilled in the ledger turns its looked-up status to
`some true` (when present). -/
theorem lookupLedger_mark (l : List (Nat × Bool)) (k : Nat) (b : Bool)
    (h : lookupLedger l k = some b) :
    lookupLedger (l.map (fun p => if p.1 == k then (p.1, true) else p)) k
      = some true := by
  induction l with
  | nil => simp [lookupLedger] at h
  | cons p rest ih =>
      by_cases hp : (p.1 == k) = true
      · have hhead : (if p.1 == k then (p.1, true) else p) = (p.1, true) := by
          simp [hp]
        unfold lookupLedger
        rw [List.map_cons, hhead]
        simp only [List.find?_cons, hp]
        rfl
      · have hp2 : (p.1 == k) = false := by simpa using hp
        have hhead : (if p.1 == k then (p.1, true) else p) = p := by
          simp [hp2]
        unfold lookupLedger at h ⊢
        rw [List.map_cons, hhead]
        simp only [List.find?_cons, hp2] at h ⊢
        exact ih h

/-- C7 amended: `onIdle()` lazily creates a DV held in a single slot:
(a) while the slot is occupied every call returns the same DV and leaves
the scheduler unchanged; (b) when the slot is empty and work is
outstanding, a call mints a pending DV into the slot; (c) when the slot is
occupied and the scheduler drains, `_checkIdle` fulfills the DV, clears the
slot, and the next call mints a fresh DV; but (d) when the slot is empty
and the scheduler is ALREADY idle, the minted DV fulfills immediately and
the slot is NOT cleared, so later calls keep returning that same
already-fulfilled DV until some `_checkIdle` clears it. -/
theorem C7_onIdle_amended (s : Scheduler) :
    (∀ h, s.idleSlot = some h → s.onIdle = (s, h)) ∧
    (s.idleSlot = none → ¬(s.runningJobs = [] ∧ s.pendingJobs = []) →
      (s.onIdle).1.idleSlot = some s.hopeCtr ∧
      (lookupLedger s.idleLedger s.hopeCtr = none →
        lookupLedger (s.onIdle).1.idleLedger s.hopeCtr = some false)) ∧
    (∀ h b, s.idleSlot = some h → s.runningJobs = [] → s.pendingJobs = [] →
      lookupLedger s.idleLedger h = some b → h < s.hopeCtr →
      s._checkIdle.idleSlot = none ∧
      lookupLedger s._checkIdle.idleLedger h = some true ∧
      (s._checkIdle.onIdle).2 = s.hopeCtr ∧
      (s._checkIdle.onIdle).2 ≠ h) ∧
    (s.idleSlot = none → s.runningJobs = [] → s.pendingJobs = [] →
      (s.onIdle).1.idleSlot = some s.hopeCtr ∧
      (lookupLedger s.idleLedger s.hopeCtr = none →
        lookupLedger (s.onIdle).1.idleLedger s.hopeCtr = some true)) := by
  refine ⟨?_, ?_, ?_, ?_⟩
  · intro h hs
    simp [Scheduler.onIdle, hs]
  · intro hs hbusy
    have hful : (s.runningJobs.isEmpty && s.pendingJobs.isEmpty) = false := by
      cases hb : (s.runningJobs.isEmpty && s.pendingJobs.isEmpty) with
      | false => rfl
      | true =>
          rw [Bool.and_eq_true, List.isEmpty_iff, List.isEmpty_iff] at hb
          exact absurd hb hbusy
    constructor
    · simp [Scheduler.onIdle, hs]
    · intro hfresh
      simpa [Scheduler.onIdle, hs, hful] using
        lookupLedger_append_fresh s.idleLedger s.hopeCtr false hfresh
  · intro h b hs hrun hpend hled hlt
    have hci : s._checkIdle =
        { s with idleSlot := none,
                 idleLedger := s.idleLedger.map
                   (fun p => if p.1 == h then (p.1, true) else p) } := by
      simp [Scheduler._checkIdle, hrun, hpend, hs]
    refine ⟨by rw [hci], ?_, ?_, ?_⟩
    · rw [hci]
      exact lookupLedger_mark s.idleLedger h b hled
    · rw [hci]; simp [Scheduler.onIdle]
    · rw [hci]; simp [Scheduler.onIdle]; omega
  · intro hs hrun hpend
    have hful : (s.runningJobs.isEmpty && s.pendingJobs.isEmpty) = true := by
      simp [List.isEmpty_iff, hrun, hpend]
    constructor
    · simp [Scheduler.onIdle, hs]
    · intro hfresh
      simpa [Scheduler.onIdle, hs, hful] using
        lookupLedger_append_fresh s.idleLedger s.hopeCtr true hfresh

/-- Witness for C7 amended: clause (d) at the fresh scheduler (slot empty,
already idle, counter fresh), and clause (a) at the state the first call
produced. -/
theorem C7_onIdle_amended_witness :
    (((Scheduler.init 1 none true).onIdle).1.idleSlot
        = some (Scheduler.init 1 none true).hopeCtr ∧
      (lookupLedger (Scheduler.init 1 none true).idleLedger
          (Scheduler.init 1 none true).hopeCtr = none →
        lookupLedger ((Scheduler.init 1 none true).onIdle).1.idleLedger
          (Scheduler.init 1 none true).hopeCtr = some true)) ∧
    ((Scheduler.init 1 none true).onIdle).1.onIdle
      = (((Scheduler.init 1 none true).onIdle).1, 0) :=
  ⟨(C7_onIdle_amended (Scheduler.init 1 none true)).2.2.2 rfl rfl rfl,
   (C7_onIdle_amended ((Scheduler.init 1 none true).onIdle).1).1 0 (by decide)⟩

/-- C10: `add` on a scheduler whose pending queue has reached
`maxQueueSize` throws `SchedulerError('Queue is full')` as its very first
action, before the id counter, the jobs map, the queue or any statistic is
touched, so the scheduler state is unchanged. -/
theorem C10_add_full_queue (s : Scheduler) (m : Nat)
    (hm : s.maxQueueSize = some m) (hfull : m ≤ s.pendingJobs.length)
    (opts : JobOptions) :
    s.add opts = .error (.schedulerError "Queue is full") ∧
    step s (.add opts) = s := by
  have hq : queueFull s = true := by
    simp [queueFull, hm, hfull]
  constructor
  · simp [Scheduler.add, hq]
  · simp [step, Scheduler.add, hq]

/-- Witness for C10 at a scheduler constructed with `maxQueueSize = 0`,
whose empty queue is already at capacity. -/
theorem C10_add_full_queue_witness :
    (Scheduler.init 1 (some 0) true).add (prioOpts 0)
      = .error (.schedulerError "Queue is full") ∧
    step (Scheduler.init 1 (some 0) true) (.add (prioOpts 0))
      = Scheduler.init 1 (some 0) true :=
  C10_add_full_queue (Scheduler.init 1 (some 0) true) 0 rfl (by decide) (prioOpts 0)

/-- `_runJob` touches only the jobs map, the obligations and the ghost log:
the queue, the running set and the concurrency cap are unchanged. -/
theorem runJob_proj (s : Scheduler) (id : Nat) :
    (Scheduler._runJob s id).runningJobs = s.runningJobs ∧
    (Scheduler._runJob s id).concurrency = s.concurrency ∧
    (Scheduler._runJob s id).pendingJobs = s.pendingJobs := by
  unfold Scheduler._runJob
  cases findJob s.jobs id with
  | none => exact ⟨rfl, rfl, rfl⟩
  | some j => by_cases hj : j.state = .pending <;> simp [hj]

/-- `_checkIdle` touches only the idle slot and ledger. -/
theorem checkIdle_proj (s : Scheduler) :
    (s._checkIdle).runningJobs = s.runningJobs ∧
    (s._checkIdle).concurrency = s.concurrency ∧
    (s._checkIdle).pendingJobs = s.pendingJobs := by
  unfold Scheduler._checkIdle
  split
  · cases hs : s.idleSlot <;> simp [hs]
  · exact ⟨rfl, rfl, rfl⟩

/-- `_checkIdle` preserves the concurrency bound. -/
theorem checkIdle_run_le (s : Scheduler)
    (h : s.runningJobs.length ≤ s.concurrency) :
    (s._checkIdle).runningJobs.length ≤ (s._checkIdle).concurrency := by
  obtain ⟨h1, h2, _⟩ := checkIdle_proj s
  rw [h1, h2]; exact h

/-- Set insertion grows the running set by at most one element. -/
theorem addUnique_length (l : List Nat) (id : Nat) :
    (addUnique l id).length ≤ l.length + 1 := by
  unfold addUnique
  split
  · exact Nat.le_succ _
  · simp

/-- Erasing never lengthens a list. -/
theorem erase_length_le (l : List Nat) (a : Nat) :
    (l.erase a).length ≤ l.length := by
  rw [List.length_erase]
  split <;> omega

/-- The launch loop preserves the concurrency bound: it only inserts into
the running set behind the `running.size < concurrency` guard. -/
theorem pumpGo_inv : ∀ (f : Nat) (s : Scheduler),
    s.runningJobs.length ≤ s.concurrency →
    (pumpGo f s).runningJobs.length ≤ (pumpGo f s).concurrency ∧
    (pumpGo f s).concurrency = s.concurrency := by
  intro f
  induction f with
  | zero => intro s h; exact ⟨h, rfl⟩
  | succ n ih =>
      intro s h
      cases hp : s.pendingJobs with
      | nil =>
          simp only [pumpGo, hp]
          exact ⟨h, trivial⟩
      | cons id rest =>
          by_cases hc : s.runningJobs.length < s.concurrency
          · have hred : pumpGo (n + 1) s =
                pumpGo n (Scheduler._runJob
                  { s with pendingJobs := rest,
                           runningJobs := addUnique s.runningJobs id } id) := by
              simp only [pumpGo, hp, hc, if_true]
            rw [hred]
            have h2 : (Scheduler._runJob
                { s with pendingJobs := rest,
                         runningJobs := addUnique s.runningJobs id } id).runningJobs.length ≤
                (Scheduler._runJob
                { s with pendingJobs := rest,
                         runningJobs := addUnique s.runningJobs id } id).concurrency := by
              obtain ⟨hr, hcc, _⟩ := runJob_proj
                { s with pendingJobs := rest,
                         runningJobs := addUnique s.runningJobs id } id
              rw [hr, hcc]
              exact le_trans (addUnique_length s.runningJobs id) hc
            obtain ⟨ha, hb⟩ := ih _ h2
            refine ⟨ha, ?_⟩
            rw [hb]
            exact (runJob_proj _ _).2.1
          · simp only [pumpGo, hp, hc, if_false]
            exact ⟨h, trivial⟩

/-- `_processQueue` preserves the concurrency bound. -/
theorem processQueue_inv (s : Scheduler)
    (h : s.runningJobs.length ≤ s.concurrency) :
    (s._processQueue).runningJobs.length ≤ (s._processQueue).concurrency ∧
    (s._processQueue).concurrency = s.concurrency := by
  unfold Scheduler._processQueue
  by_cases hr : s.isRunning = true
  · simp only [hr, if_true]
    obtain ⟨h1, h2⟩ := pumpGo_inv s.pendingJobs.length s h
    split
    · obtain ⟨c1, c2, _⟩ := checkIdle_proj (pumpGo s.pendingJobs.length s)
      rw [c1, c2]
      exact ⟨h1, h2⟩
    · exact ⟨h1, h2⟩
  · simp only [hr, if_false]
    exact ⟨h, rfl⟩

/-- `start` preserves the concurrency bound. -/
theorem start_inv (s : Scheduler)
    (h : s.runningJobs.length ≤ s.concurrency) :
    (s.start).runningJobs.length ≤ (s.start).concurrency := by
  unfold Scheduler.start
  by_cases hr : s.isRunning = true
  · simp only [hr, if_true]; exact h
  · simp only [hr, if_false]
    exact (processQueue_inv { s with isRunning := true } h).1

/-- `_jobCompleted` preserves the concurrency bound. -/
theorem jobCompleted_inv (s : Scheduler) (id : Nat) (v : HVal)
    (h : s.runningJobs.length ≤ s.concurrency) :
    (Scheduler._jobCompleted s id v).runningJobs.length ≤
      (Scheduler._jobCompleted s id v).concurrency := by
  unfold Scheduler._jobCompleted
  have h1 : (s.runningJobs.erase id).length ≤ s.concurrency :=
    le_trans (erase_length_le _ _) h
  cases hf : findJob s.jobs id with
  | none =>
      simp only [hf]
      refine (processQueue_inv _ ?_).1
      dsimp only
      exact h1
  | some j =>
      simp only [hf]
      refine (processQueue_inv _ ?_).1
      dsimp only
      exact h1

/-- `_jobFailed` preserves the concurrency bound. -/
theorem jobFailed_inv (s : Scheduler) (id : Nat) (e : HVal)
    (h : s.runningJobs.length ≤ s.concurrency) :
    (Scheduler._jobFailed s id e).runningJobs.length ≤
      (Scheduler._jobFailed s id e).concurrency := by
  unfold Scheduler._jobFailed
  cases hf : findJob s.jobs id with
  | none => simp only [hf]; exact h
  | some j =>
      simp only [hf]
      split
      · exact h
      · refine (processQueue_inv _ ?_).1
        dsimp only
        exact le_trans (erase_length_le _ _) h

/-- Every machine transition preserves the concurrency bound. -/
theorem step_inv (s : Scheduler) (e : Ev)
    (h : s.runningJobs.length ≤ s.concurrency) :
    (step s e).runningJobs.length ≤ (step s e).concurrency := by
  cases e with
  | add opts =>
      unfold step Scheduler.add
      by_cases hq : queueFull s = true
      · simp only [hq, if_true]; exact h
      · simp only [hq, if_false]
        split
        · rename_i p hp
          injection hp with hp
          subst hp
          split
          · refine (processQueue_inv _ ?_).1
            exact h
          · exact h
        · exact h
  | start => exact start_inv s h
  | stop => exact h
  | cancelJob id =>
      unfold step Scheduler.cancelJob
      cases hf : findJob s.jobs id with
      | none => simp only [hf]; exact h
      | some j =>
          simp only [hf]
          split
          · refine checkIdle_run_le _ ?_
            dsimp only
            exact le_trans (erase_length_le _ _) h
          · exact h
  | cancelAll => exact checkIdle_run_le _ (Nat.zero_le _)
  | onIdle =>
      unfold step Scheduler.onIdle
      cases hs : s.idleSlot with
      | none => simp only [hs]; exact h
      | some hh => simp only [hs]; exact h
  | settleOk id v =>
      unfold step
      by_cases hm : id ∈ s.obligations
      · simp only [hm, if_true]
        exact jobCompleted_inv _ id v h
      · simp only [hm, if_false]; exact h
  | settleErr id e =>
      unfold step
      by_cases hm : id ∈ s.obligations
      · simp only [hm, if_true]
        exact jobFailed_inv _ id e h
      · simp only [hm, if_false]; exact h
  | retryTimer id =>
      unfold step retryTimerFires
      by_cases hm : id ∈ s.retryTimers
      · simp only [hm, if_true]
        refine (processQueue_inv _ ?_).1
        dsimp only
        exact h
      · simp only [hm, if_false]; exact h

/-- C8: in every reachable scheduler state the number of running jobs never
exceeds the configured concurrency limit. -/
theorem C8_running_le_concurrency (s : Scheduler) (hs : Reach s) :
    s.runningJobs.length ≤ s.concurrency := by
  induction hs with
  | base c mq a =>
      cases a with
      | false => exact Nat.zero_le _
      | true =>
          have hinit : Scheduler.init c mq true =
              Scheduler.start
                { concurrency := c, maxQueueSize := mq, autoStart := true,
                  jobs := [], pendingJobs := [], runningJobs := [],
                  completedJobs := [], nextJobId := 1, isRunning := false,
                  stats := { totalJobs := 0, completedJobs := 0,
                             failedJobs := 0, canceledJobs := 0 },
                  idleSlot := none, idleLedger := [], hopeCtr := 0,
                  obligations := [], retryTimers := [], launchLog := [] } := rfl
          rw [hinit]
          refine start_inv _ ?_
          exact Nat.zero_le _
  | next s e _ ih => exact step_inv s e ih

/-- Witness for C8 at a concrete reachable state: a scheduler with
concurrency 2 after adding (and thereby launching) one job. -/
theorem C8_running_le_concurrency_witness :
    (step (Scheduler.init 2 none true) (.add (prioOpts 0))).runningJobs.length ≤
      (step (Scheduler.init 2 none true) (.add (prioOpts 0))).concurrency :=
  C8_running_le_concurrency _ (Reach.next _ _ (Reach.base 2 none true))

/-- Once the Hope returned by `any` is settled, further input settlements
do not change it (the `_settled` guard absorbs them). -/
theorem anyStep_settled (st : AnySt) (ev : Nat × Outcome)
    (h : st.hope.settled = true) : (anyStep st ev).hope = st.hope := by
  obtain ⟨i, o⟩ := ev
  cases o with
  | ok v =>
      simp only [anyStep]
      unfold Hope.resolveCb Hope._resolve
      simp [h]
  | err r =>
      simp only [anyStep]
      split
      · unfold Hope._reject
        simp [h]
      · rfl

/-- Once settled, a whole run of further settlements leaves the Hope as
it is. -/
theorem anyFold_settled (es : List (Nat × Outcome)) :
    ∀ st : AnySt, st.hope.settled = true →
    (es.foldl anyStep st).hope = st.hope := by
  induction es with
  | nil => intro st _; rfl
  | cons e rest ih =>
      intro st h
      rw [List.foldl_cons]
      have he := anyStep_settled st e h
      rw [ih _ (by rw [he]; exact h), he]

/-- A run of rejection deliveries that leaves at least one input unsettled
keeps the Hope fresh: the aggregate rejection fires only when the counter
reaches the input count. -/
theorem anyFold_err_run (es : List (Nat × Outcome)) :
    ∀ st : AnySt, (∀ e ∈ es, e.2.isErr = true) → st.hope = Hope.fresh →
    st.rejectedCount + es.length < st.errors.length →
    (es.foldl anyStep st).hope = Hope.fresh ∧
    (es.foldl anyStep st).errors.length = st.errors.length ∧
    (es.foldl anyStep st).rejectedCount = st.rejectedCount + es.length := by
  induction es with
  | nil => intro st _ hh _; exact ⟨hh, rfl, rfl⟩
  | cons e rest ih =>
      intro st hall hh hlt
      obtain ⟨i, o⟩ := e
      have hie := hall (i, o) (List.mem_cons_self _ _)
      cases o with
      | ok v => simp [Outcome.isErr] at hie
      | err r =>
          rw [List.foldl_cons]
          have hnofire : ¬ (st.rejectedCount + 1 = st.errors.length) := by
            simp only [List.length_cons] at hlt
            omega
          have hstep : anyStep st (i, .err r) =
              { hope := st.hope,
                errors := st.errors.set i (some r),
                rejectedCount := st.rejectedCount + 1 } := by
            simp only [anyStep]
            simp [hnofire]
          rw [hstep]
          obtain ⟨h1, h2, h3⟩ := ih
            { hope := st.hope, errors := st.errors.set i (some r),
              rejectedCount := st.rejectedCount + 1 }
            (fun e he => hall e (List.mem_cons_of_mem _ he)) hh
            (by
              simp only [List.length_set]
              simp only [List.length_cons] at hlt
              omega)
          refine ⟨h1, ?_, ?_⟩
          · rw [h2]
            exact List.length_set st.errors i _ ▸ rfl
          · rw [h3]
            simp only [List.length_cons]
            omega

/-- A complete run of rejection deliveries — one for every input — rejects
the Hope with the AggregateError of the errors array. -/
theorem anyFold_allerr (es : List (Nat × Outcome)) :
    ∀ st : AnySt, 0 < es.length → (∀ e ∈ es, e.2.isErr = true) →
    st.hope = Hope.fresh →
    st.rejectedCount + es.length = st.errors.length →
    (es.foldl anyStep st).hope =
      { state := .rejected (.aggregateError
          ((buildErr es st.errors).map (fun o => o.getD .undefined))),
        settled := true } := by
  induction es with
  | nil =>
      intro st h0
      exact absurd h0 (by simp)
  | cons e rest ih =>
      intro st _ hall hh hlen
      obtain ⟨i, o⟩ := e
      have hie := hall (i, o) (List.mem_cons_self _ _)
      cases o with
      | ok v => simp [Outcome.isErr] at hie
      | err r =>
          rw [List.foldl_cons]
          cases rest with
          | nil =>
              have hfire : st.rejectedCount + 1 = st.errors.length := by
                simp only [List.length_cons, List.length_nil] at hlen
                omega
              have hstep : anyStep st (i, .err r) =
                  { hope := st.hope._reject (.aggregateError
                      ((st.errors.set i (some r)).map (fun o => o.getD .undefined))),
                    errors := st.errors.set i (some r),
                    rejectedCount := st.rejectedCount + 1 } := by
                simp only [anyStep]
                simp [hfire]
              rw [hstep, List.foldl_nil]
              show st.hope._reject _ = _
              rw [hh]
              rfl
          | cons e2 rest2 =>
              have hnofire : ¬ (st.rejectedCount + 1 = st.errors.length) := by
                simp only [List.length_cons] at hlen
                omega
              have hstep : anyStep st (i, .err r) =
                  { hope := st.hope,
                    errors := st.errors.set i (some r),
                    rejectedCount := st.rejectedCount + 1 } := by
                simp only [anyStep]
                simp [hnofire]
              rw [hstep]
              have hres := ih
                { hope := st.hope, errors := st.errors.set i (some r),
                  rejectedCount := st.rejectedCount + 1 }
                (by simp) (fun e he => hall e (List.mem_cons_of_mem _ he)) hh
                (by
                  simp only [List.length_set]
                  simp only [List.length_cons] at hlen ⊢
                  omega)
              rw [hres]
              rfl

/-- `buildErr` preserves the length of the errors array. -/
theorem buildErr_length (es : List (Nat × Outcome)) :
    ∀ init : List (Option HVal), (buildErr es init).length = init.length := by
  induction es with
  | nil => intro init; rfl
  | cons e rest ih =>
      intro init
      show (buildErr rest (init.set e.1 (some e.2.errReason))).length = _
      rw [ih, List.length_set]

/-- An index no delivery wrote to keeps its initial entry. -/
theorem buildErr_getElem?_not_mem (es : List (Nat × Outcome)) :
    ∀ (init : List (Option HVal)) (i : Nat), i ∉ es.map Prod.fst →
    (buildErr es init)[i]? = init[i]? := by
  induction es with
  | nil => intro init i _; rfl
  | cons e rest ih =>
      intro init i hmem
      rw [List.map_cons, List.mem_cons] at hmem
      push_neg at hmem
      show (buildErr rest (init.set e.1 (some e.2.errReason)))[i]? = _
      rw [ih _ i hmem.2, List.getElem?_set]
      simp [Ne.symm hmem.1]

/-- Pointwise description of the errors array after a run of rejection
deliveries with pairwise distinct in-bounds indices: index `i` holds the
reason of its delivery, or its initial entry when input `i` delivered
nothing. -/
theorem buildErr_getElem? (es : List (Nat × Outcome)) :
    ∀ init : List (Option HVal), (es.map Prod.fst).Nodup →
    (∀ e ∈ es, e.1 < init.length) → ∀ i : Nat,
    (buildErr es init)[i]? =
      (match es.find? (fun e => e.1 == i) with
       | some e => some (some e.2.errReason)
       | none => init[i]?) := by
  induction es with
  | nil =>
      intro init _ _ i
      rfl
  | cons e rest ih =>
      intro init hnd hbd i
      rw [List.map_cons, List.nodup_cons] at hnd
      by_cases hi : e.1 = i
      · have hfind : List.find? (fun e => e.1 == i) (e :: rest) = some e :=
          List.find?_cons_of_pos _ (by simp [hi])
        rw [hfind]
        show (buildErr rest (init.set e.1 (some e.2.errReason)))[i]? = _
        rw [buildErr_getElem?_not_mem rest _ i (hi ▸ hnd.1), List.getElem?_set]
        have hlt : e.1 < init.length := hbd e (List.mem_cons_self _ _)
        simp [hi, hi ▸ hlt]
      · have hfind : List.find? (fun e => e.1 == i) (e :: rest) =
            List.find? (fun e => e.1 == i) rest :=
          List.find?_cons_of_neg _ (by simp [hi])
        rw [hfind]
        show (buildErr rest (init.set e.1 (some e.2.errReason)))[i]? = _
        rw [ih _ hnd.2 (fun x hx => by
          rw [List.length_set]
          exact hbd x (List.mem_cons_of_mem _ hx)) i]
        cases List.find? (fun e => e.1 == i) rest with
        | some x => rfl
        | none =>
            rw [List.getElem?_set]
            simp [hi]

/-- The errors array a complete all-rejections run hands to the
AggregateError lists, in input order, exactly the reasons of the inputs. -/
theorem buildErr_spec (es : List (Nat × Outcome)) (n : Nat)
    (hnd : (es.map Prod.fst).Nodup) (hbd : ∀ e ∈ es, e.1 < n) :
    (buildErr es (List.replicate n none)).map (fun o => o.getD .undefined)
      = (List.range n).map (reasonAt es) := by
  apply List.ext_getElem?
  intro i
  rw [List.getElem?_map, List.getElem?_map]
  rw [buildErr_getElem? es (List.replicate n none) hnd
      (fun e he => by rw [List.length_replicate]; exact hbd e he) i]
  by_cases hin : i < n
  · rw [List.getElem?_range hin]
    cases hf : List.find? (fun e => e.1 == i) es with
    | some x => simp [reasonAt, hf]
    | none =>
        simp only [hf]
        rw [List.getElem?_replicate]
        simp [reasonAt, hf, hin]
  · have hrange : (List.range n)[i]? = none := by
      rw [List.getElem?_eq_none]
      simpa using Nat.le_of_not_lt hin
    rw [hrange]
    cases hf : List.find? (fun e => e.1 == i) es with
    | some x =>
        have hx := List.find?_some hf
        have hmem := List.mem_of_find?_eq_some hf
        have : x.1 = i := by simpa using hx
        exact absurd (this ▸ hbd x hmem) hin
    | none =>
        simp only [hf]
        rw [List.getElem?_replicate]
        simp [hin]

/-- C9: behaviour of `Hope.any`.
(1) `any([])` rejects with an AggregateError carrying an empty error list.
(2) When every input rejects (each exactly once, indices in bounds), the
returned Hope rejects with an AggregateError collecting all rejection
reasons in input order, whatever the temporal order of the deliveries.
(3) Whenever a fulfillment is delivered while the Hope is still pending
(any prefix of rejections shorter than the input count), the Hope fulfills
with the value of that first fulfillment, and every later delivery is
ignored. -/
theorem C9_any_spec :
    (anyExec 0 []).hope =
      { state := .rejected (.aggregateError []), settled := true } ∧
    (∀ n events, events.length = n → (events.map Prod.fst).Nodup →
      (∀ e ∈ events, e.1 < n) → (∀ e ∈ events, e.2.isErr = true) →
      (anyExec n events).hope =
        { state := .rejected (.aggregateError
            ((List.range n).map (reasonAt events))),
          settled := true }) ∧
    (∀ n (pre : List (Nat × Outcome)) (i : Nat) (v : HVal)
        (post : List (Nat × Outcome)),
      (∀ e ∈ pre, e.2.isErr = true) → pre.length < n →
      (anyExec n (pre ++ (i, .ok v) :: post)).hope =
        { state := .fulfilled v, settled := true }) := by
  refine ⟨rfl, ?_, ?_⟩
  · intro n events hlen hnd hbd hall
    by_cases hn : n = 0
    · subst hn
      have hev0 : events = [] := List.length_eq_zero.mp hlen
      subst hev0
      rfl
    · have hev : 0 < events.length := by omega
      unfold anyExec
      rw [if_neg hn]
      rw [anyFold_allerr events (anyInit n) hev hall rfl
        (by simp [anyInit, hlen])]
      have hinit : (anyInit n).errors = List.replicate n none := rfl
      rw [hinit, buildErr_spec events n hnd hbd]
  · intro n pre i v post hpre hlen
    have hn : ¬ (n = 0) := by omega
    unfold anyExec
    rw [if_neg hn]
    rw [List.foldl_append, List.foldl_cons]
    obtain ⟨h1, h2, h3⟩ := anyFold_err_run pre (anyInit n) hpre rfl
      (by simp [anyInit]; omega)
    have hok : (anyStep (pre.foldl anyStep (anyInit n)) (i, .ok v)).hope =
        { state := .fulfilled v, settled := true } := by
      simp only [anyStep]
      rw [h1]
      rfl
    rw [anyFold_settled post _ (by rw [hok]), hok]

/-- Witness for C9: the all-reject clause at two inputs rejecting out of
order (reasons aggregated back in input order), and the first-fulfillment
clause at an input whose second element fulfills after one rejection. -/
theorem C9_any_spec_witness :
    (anyExec 2 [(1, .err (.str "b")), (0, .err (.str "a"))]).hope =
      { state := .rejected (.aggregateError ((List.range 2).map
          (reasonAt [(1, .err (.str "b")), (0, .err (.str "a"))]))),
        settled := true } ∧
    (List.range 2).map (reasonAt [(1, .err (.str "b")), (0, .err (.str "a"))])
      = [.str "a", .str "b"] ∧
    (anyExec 2 [(0, .err (.str "x")), (1, .ok (.str "y"))]).hope =
      { state := .fulfilled (.str "y"), settled := true } :=
  ⟨C9_any_spec.2.1 2 [(1, .err (.str "b")), (0, .err (.str "a"))]
      (by decide) (by decide) (by decide) (by decide),
   rfl,
   C9_any_spec.2.2 2 [(0, .err (.str "x"))] 1 (.str "y") []
      (by decide) (by decide)⟩

end HopeJS
